import Mathlib

/-!
Verification development for the HTML frame generator service
(`pixelle_video/services/frame_html.py`).

The development shallowly embeds the template-parameter DSL of
`HTMLFrameGenerator`: the placeholder scanner (the regex
PARAM_PATTERN applied by `re.finditer` / `re.sub`), the schema parser
`parse_template_parameters`, the default-value coercer
`_parse_default_value`, the substitution engine `_replace_parameters`,
the image-reference normalisation and context construction performed by
`generate_frame`, and the lazy `Html2Image` session management of
`_ensure_hti`.

Modelling conventions:
- Python values that can appear in a variable context or as a parsed
  default are modelled by `PyVal`.  Python floats are modelled by exact
  rationals (every float literal parsed by the code denotes a decimal
  rational; the claims only touch values that are exactly representable).
- Python string operations (`int(...)`, `float(...)`, `str.lower`,
  whitespace stripping) are modelled for ASCII input, which is the only
  input the placeholder grammar can produce.
- `logger.warning` calls are modelled by a list of `Warn` values returned
  alongside each result.
- The filesystem is modelled by a `cwd : String` plus an
  `ex : String → Bool` existence oracle; POSIX path conventions are used
  (the service targets Linux).
-/

/-- Left brace character (written via its code point so that the source of
the scanner stays free of literal brace characters). -/
def lbrace : Char := Char.ofNat 123

/-- Right brace character. -/
def rbrace : Char := Char.ofNat 125

/-- Model of a Python runtime value as it can occur in the variable context
of a render call or as a parsed parameter default. -/
inductive PyVal where
  | str (s : String)
  | int (i : Int)
  | float (q : ℚ)
  | bool (b : Bool)
  | none
deriving DecidableEq

/-- Warnings emitted through `logger.warning` by the embedded code paths. -/
inductive Warn where
  | unknownType (name ty : String)
  | invalidNumber (s : String)
  | imageNotFound (p : String)
deriving DecidableEq

/-- Python `str.strip()` over a character list (ASCII whitespace model). -/
def pyStrip (l : List Char) : List Char :=
  ((l.dropWhile Char.isWhitespace).reverse.dropWhile Char.isWhitespace).reverse

/-- Digit run with single underscores allowed strictly between digits, as
accepted inside Python numeric literals; returns the accumulated value and
the number of digits consumed so far. -/
def digitsURun : Nat → Nat → List Char → Option (Nat × Nat)
  | acc, cnt, [] => some (acc, cnt)
  | acc, cnt, c :: cs =>
    if c.isDigit then digitsURun (acc * 10 + (c.toNat - 48)) (cnt + 1) cs
    else if c = '_' then
      match cs with
      | c2 :: cs2 =>
        if c2.isDigit then digitsURun (acc * 10 + (c2.toNat - 48)) (cnt + 1) cs2
        else Option.none
      | [] => Option.none
    else Option.none

/-- Nonempty digit run (underscores between digits allowed), yielding its
value and digit count; fails on an empty list or a malformed run. -/
def digitsU : List Char → Option (Nat × Nat)
  | [] => Option.none
  | c :: cs =>
    if c.isDigit then digitsURun (c.toNat - 48) 1 cs else Option.none

/-- Model of Python `int(s)` for string argument `s`: optional surrounding
whitespace, optional sign, then a digit run. -/
def pyParseInt (s : String) : Option Int :=
  match pyStrip s.data with
  | '+' :: rest => (digitsU rest).map (fun p => (p.1 : Int))
  | '-' :: rest => (digitsU rest).map (fun p => -(p.1 : Int))
  | l => (digitsU l).map (fun p => (p.1 : Int))

/-- Mantissa of a float literal: `digits [. [digits]]` or `. digits`,
returned as integer-part value, fraction-part value and fraction digit
count. -/
def floatMantissa (l : List Char) : Option (Nat × Nat × Nat) :=
  match l.span (fun c => c ≠ '.') with
  | (ip, []) => (digitsU ip).map (fun p => (p.1, 0, 0))
  | (ip, _ :: fp) =>
    if fp.contains '.' then Option.none
    else
      match ip, fp with
      | [], [] => Option.none
      | [], _ => (digitsU fp).map (fun p => (0, p.1, p.2))
      | _, [] => (digitsU ip).map (fun p => (p.1, 0, 0))
      | _, _ =>
        match digitsU ip, digitsU fp with
        | some a, some b => some (a.1, b.1, b.2)
        | _, _ => Option.none

/-- Signed exponent of a float literal (the part after `e`/`E`). -/
def floatExponent (l : List Char) : Option Int :=
  match l with
  | '+' :: rest => (digitsU rest).map (fun p => (p.1 : Int))
  | '-' :: rest => (digitsU rest).map (fun p => -(p.1 : Int))
  | l => (digitsU l).map (fun p => (p.1 : Int))

/-- Unsigned float literal: mantissa parts with optional `e`/`E`
exponent. -/
def floatUnsigned (l : List Char) : Option (Nat × Nat × Nat × Int) :=
  match l.span (fun c => c ≠ 'e' ∧ c ≠ 'E') with
  | (m, []) => (floatMantissa m).map (fun p => (p.1, p.2.1, p.2.2, (0 : Int)))
  | (m, _ :: e) =>
    match floatMantissa m, floatExponent e with
    | some p, some ex => some (p.1, p.2.1, p.2.2, ex)
    | _, _ => Option.none

/-- The exact rational denoted by a parsed float literal, assembled with
integer arithmetic only. -/
def ratOfParts (neg : Bool) (iv fv cnt : Nat) (e : Int) : ℚ :=
  let m : Int := ((iv * 10 ^ cnt + fv : Nat) : Int)
  let m := if neg then -m else m
  if 0 ≤ e then mkRat (m * ((10 ^ e.toNat : Nat) : Int)) (10 ^ cnt)
  else mkRat m (10 ^ cnt * 10 ^ (-e).toNat)

/-- Model of Python `float(s)` restricted to numeric literals: optional
surrounding whitespace, optional sign, mantissa, optional exponent.  The
non-numeric spellings (`inf`, `nan`) are not modelled: the code only calls
`float` on strings containing a `.` character. -/
def pyParseFloat (s : String) : Option ℚ :=
  match pyStrip s.data with
  | '+' :: rest =>
    (floatUnsigned rest).map (fun p => ratOfParts false p.1 p.2.1 p.2.2.1 p.2.2.2)
  | '-' :: rest =>
    (floatUnsigned rest).map (fun p => ratOfParts true p.1 p.2.1 p.2.2.1 p.2.2.2)
  | l =>
    (floatUnsigned l).map (fun p => ratOfParts false p.1 p.2.1 p.2.2.1 p.2.2.2)

/-- Python `str.lower()` (ASCII model). -/
def pyLower (s : String) : String := String.mk (s.data.map Char.toLower)

/-- Membership test of Python `'.' in s` over the characters of `s`. -/
def hasDotChar (s : String) : Bool := s.data.contains '.'

/-- Model of Python `str.startswith` as character-list comparison. -/
def listStarts : List Char → List Char → Bool
  | [], _ => true
  | _ :: _, [] => false
  | p :: ps, c :: cs => p = c && listStarts ps cs

/-- String form of `listStarts`. -/
def strStarts (pre s : String) : Bool := listStarts pre.data s.data

/-- Embedding of `HTMLFrameGenerator._parse_default_value`: coerce a raw
default literal (or its absence) into a typed value, returning the value
together with any warnings logged. -/
def parse_default_value (param_type : String) (value_str : Option String) :
    PyVal × List Warn :=
  match value_str with
  | Option.none =>
    (match param_type with
     | "text" => (PyVal.str "", [])
     | "number" => (PyVal.int 0, [])
     | "color" => (PyVal.str "#000000", [])
     | "bool" => (PyVal.bool false, [])
     | _ => (PyVal.str "", []))
  | some s =>
    if param_type = "number" then
      match (if hasDotChar s then (pyParseFloat s).map PyVal.float
             else (pyParseInt s).map PyVal.int) with
      | some v => (v, [])
      | Option.none => (PyVal.int 0, [Warn.invalidNumber s])
    else if param_type = "bool" then
      (PyVal.bool (decide (pyLower s ∈ ["true", "1", "yes", "on"])), [])
    else if param_type = "color" then
      (if strStarts "#" s then (PyVal.str s, [])
       else (PyVal.str ("#" ++ s), []))
    else
      (PyVal.str s, [])

/-- One placeholder match of the regex
`\x7b\x7b([a-zA-Z_][a-zA-Z0-9_]*)(?::([a-z]+))?(?:=([^\x7d]+))?\x7d\x7d`
(PARAM_PATTERN in the source): the captured name, optional type token and
optional default literal. -/
structure PH where
  name : String
  type? : Option String
  default? : Option String
deriving DecidableEq

/-- First character of a placeholder name: `[a-zA-Z_]`. -/
def nameStartChar (c : Char) : Bool := c.isAlpha || c = '_'

/-- Subsequent characters of a placeholder name: `[a-zA-Z0-9_]`. -/
def nameChar (c : Char) : Bool := c.isAlphanum || c = '_'

/-- Match the name group `([a-zA-Z_][a-zA-Z0-9_]*)` at the head of the
input, returning the captured name and the rest. -/
def matchPHname : List Char → Option (String × List Char)
  | [] => Option.none
  | c :: rest =>
    if nameStartChar c then
      some (String.mk (c :: rest.takeWhile nameChar), rest.dropWhile nameChar)
    else Option.none

/-- Match the optional type group `(?::([a-z]+))?`.  When the next character
is `:` the type run must be a nonempty run of lowercase letters (if it is
empty the whole placeholder fails to match, exactly as the regex does, since
the leftover `:` can satisfy neither `=` nor the closing braces). -/
def matchPHtype : List Char → Option (Option String × List Char)
  | [] => some (Option.none, [])
  | c :: rest =>
    if c = ':' then
      match rest.takeWhile Char.isLower with
      | [] => Option.none
      | t => some (some (String.mk t), rest.dropWhile Char.isLower)
    else some (Option.none, c :: rest)

/-- Match the optional default group `(?:=([^\x7d]+))?`; when the next
character is `=` the default run must be nonempty, as for the type group. -/
def matchPHdefault : List Char → Option (Option String × List Char)
  | [] => some (Option.none, [])
  | c :: rest =>
    if c = '=' then
      match rest.takeWhile (fun x => x ≠ rbrace) with
      | [] => Option.none
      | d => some (some (String.mk d), rest.dropWhile (fun x => x ≠ rbrace))
    else some (Option.none, c :: rest)

/-- Match the closing `\x7d\x7d`. -/
def matchPHclose : List Char → Option (List Char)
  | a :: b :: rest => if a = rbrace ∧ b = rbrace then some rest else Option.none
  | _ => Option.none

/-- Match the whole placeholder pattern at the head of the input, returning
the captured groups and the remaining characters.  This is a deterministic
rendering of PARAM_PATTERN: at every point where the regex engine could
backtrack, no alternative continuation can succeed (the character following
a greedy run never belongs to the run's class and never starts the next
required token). -/
def matchPH (cs : List Char) : Option (PH × List Char) :=
  match cs with
  | a :: b :: rest =>
    if a = lbrace ∧ b = lbrace then
      match matchPHname rest with
      | some (nm, r1) =>
        match matchPHtype r1 with
        | some (ty, r2) =>
          match matchPHdefault r2 with
          | some (df, r3) =>
            match matchPHclose r3 with
            | some r4 => some (⟨nm, ty, df⟩, r4)
            | Option.none => Option.none
          | Option.none => Option.none
        | Option.none => Option.none
      | Option.none => Option.none
    else Option.none
  | _ => Option.none

/-- A scanned template is a sequence of literal characters and placeholder
matches, in text order. -/
inductive Tok where
  | lit (c : Char)
  | ph (m : PH)
deriving DecidableEq

/-- Fuel-indexed scanner: at each position try to match the placeholder
pattern; on success emit the match and continue after it (non-overlapping,
leftmost-first, exactly the scan order of `re.finditer` and `re.sub`),
otherwise emit one literal character and advance by one. -/
def tokensF : Nat → List Char → List Tok
  | 0, _ => []
  | _ + 1, [] => []
  | f + 1, c :: cs =>
    match matchPH (c :: cs) with
    | some (m, rest) => Tok.ph m :: tokensF f rest
    | Option.none => Tok.lit c :: tokensF f cs

/-- Scan a character list into literal characters and placeholder matches. -/
def tokens (cs : List Char) : List Tok := tokensF cs.length cs

/-- All placeholder matches of a template in text order: the embedding of
`re.finditer(PARAM_PATTERN, template)`. -/
def findAll (s : String) : List PH :=
  (tokens s.data).filterMap (fun t => match t with
    | Tok.ph m => some m
    | Tok.lit _ => Option.none)

/-- First-match lookup in an association list: the embedding of Python
`dict` key lookup (`name in values`, `values[name]`) for dictionaries
represented as key-value lists without duplicate keys. -/
def lookupStr {α : Type} (k : String) : List (String × α) → Option α
  | [] => Option.none
  | (k', v) :: rest => if k' = k then some v else lookupStr k rest

/-- Model of Python `str(value)` on a `PyVal` (`True`/`False`/`None`
capitalised as Python spells them; floats rendered through `floatStr`
below). -/
def floatStrExp : Nat → Option Nat := fun d =>
  (List.range 40).find? (fun k => 10 ^ k % d = 0)

/-- Left-pad a numeral with zeros to the given width. -/
def padZeros (k : Nat) (n : Nat) : String :=
  String.mk (List.replicate (k - (toString n).length) '0') ++ toString n

/-- Decimal rendering of a rational, modelling Python `str` on the float
the rational denotes.  Defined (with an exact decimal expansion) for
rationals whose denominator divides a power of ten, which covers every
value `pyParseFloat` can produce from a literal. -/
def floatStr (q : ℚ) : String :=
  if q.den = 1 then toString q.num ++ ".0"
  else
    match floatStrExp q.den with
    | some k =>
      let scaled : Int := q.num * (10 ^ k) / (q.den : Int)
      let a : Nat := scaled.natAbs
      (if q.num < 0 then "-" else "") ++
        toString (a / 10 ^ k) ++ "." ++ padZeros k (a % 10 ^ k)
    | Option.none => toString q.num ++ "/" ++ toString q.den

/-- Model of Python `str(value)`. -/
def pyStrVal : PyVal → String
  | PyVal.str s => s
  | PyVal.int i => toString i
  | PyVal.float q => floatStr q
  | PyVal.bool b => if b then "True" else "False"
  | PyVal.none => "None"

/-- Embedding of the inner `replacer` closure of
`HTMLFrameGenerator._replace_parameters`: given the variable context and
one placeholder match, produce its replacement text.  The source checks
`isinstance(value, bool)` before stringifying and maps `None` to the empty
string; an absent context key falls back to the (truthy, hence nonempty)
inline default literal, else to the empty string. -/
def replacer (values : List (String × PyVal)) (m : PH) : String :=
  match lookupStr m.name values with
  | some v =>
    match v with
    | PyVal.bool b => if b then "true" else "false"
    | PyVal.none => ""
    | v => pyStrVal v
  | Option.none =>
    match m.default? with
    | some d => if d.data.isEmpty then "" else d
    | Option.none => ""

/-- Replacement of every scanned token: literal characters are copied,
placeholder matches are replaced by `replacer`. -/
def substToks (values : List (String × PyVal)) (ts : List Tok) : List Char :=
  ts.flatMap (fun t => match t with
    | Tok.lit c => [c]
    | Tok.ph m => (replacer values m).data)

/-- Embedding of `HTMLFrameGenerator._replace_parameters`:
`re.sub(PARAM_PATTERN, replacer, html)`. -/
def replace_parameters (html : String) (values : List (String × PyVal)) :
    String :=
  String.mk (substToks values (tokens html.data))

/-- The reserved built-in names (PRESET_PARAMS in the source). -/
def PRESET_PARAMS : List String :=
  ["title", "text", "image", "content_title", "content_author",
   "content_subtitle", "content_genre"]

/-- The four supported parameter types. -/
def supportedTypes : List String := ["text", "number", "color", "bool"]

/-- One parsed parameter declaration (the per-name dictionary produced by
`parse_template_parameters`). -/
structure ParamConfig where
  type : String
  default : PyVal
  label : String
deriving DecidableEq

/-- Processing of a single non-skipped match inside
`parse_template_parameters`: default the type token to `text`, downgrade an
unsupported type to `text` with a warning, and coerce the default literal. -/
def processMatch (m : PH) : ParamConfig × List Warn :=
  let ty0 := match m.type? with
    | some t => t
    | Option.none => "text"
  let tyW : String × List Warn :=
    if ty0 ∈ supportedTypes then (ty0, [])
    else ("text", [Warn.unknownType m.name ty0])
  let dv := parse_default_value tyW.1 m.default?
  (⟨tyW.1, dv.1, m.name⟩, tyW.2 ++ dv.2)

/-- Fold of `parse_template_parameters` over the match list: reserved names
and already-declared names are skipped; every other match is processed and
appended (Python dicts preserve insertion order). -/
def parseParamsAux : List PH → List (String × ParamConfig) → List Warn →
    List (String × ParamConfig) × List Warn
  | [], acc, ws => (acc, ws)
  | m :: ms, acc, ws =>
    if m.name ∈ PRESET_PARAMS then parseParamsAux ms acc ws
    else if (lookupStr m.name acc).isSome then parseParamsAux ms acc ws
    else
      let cw := processMatch m
      parseParamsAux ms (acc ++ [(m.name, cw.1)]) (ws ++ cw.2)

/-- Embedding of `HTMLFrameGenerator.parse_template_parameters`: the
ordered schema of declared parameters of a template, with the warnings
logged while parsing it. -/
def parse_template_parameters (template : String) :
    List (String × ParamConfig) × List Warn :=
  parseParamsAux (findAll template) [] []

theorem dropWhile_length_le (p : Char → Bool) :
    ∀ l : List Char, (l.dropWhile p).length ≤ l.length
  | [] => Nat.le_refl _
  | c :: cs => by
    rw [List.dropWhile_cons]
    split
    · exact Nat.le_trans (dropWhile_length_le p cs) (Nat.le_succ _)
    · exact Nat.le_refl _

theorem matchPHname_length {l : List Char} {p : String × List Char}
    (h : matchPHname l = some p) : p.2.length < l.length := by
  cases l with
  | nil => simp [matchPHname] at h
  | cons c rest =>
    simp only [matchPHname] at h
    split at h
    · cases h
      simpa using Nat.lt_succ_of_le (dropWhile_length_le nameChar rest)
    · cases h

theorem matchPHtype_length {l : List Char} {p : Option String × List Char}
    (h : matchPHtype l = some p) : p.2.length ≤ l.length := by
  cases l with
  | nil => cases h; exact Nat.le_refl _
  | cons c rest =>
    simp only [matchPHtype] at h
    split at h
    · split at h
      · cases h
      · cases h
        simpa using Nat.le_trans (dropWhile_length_le Char.isLower rest)
          (Nat.le_succ _)
    · cases h; exact Nat.le_refl _

theorem matchPHdefault_length {l : List Char} {p : Option String × List Char}
    (h : matchPHdefault l = some p) : p.2.length ≤ l.length := by
  cases l with
  | nil => cases h; exact Nat.le_refl _
  | cons c rest =>
    simp only [matchPHdefault] at h
    split at h
    · split at h
      · cases h
      · cases h
        simpa using Nat.le_trans
          (dropWhile_length_le (fun x => x ≠ rbrace) rest) (Nat.le_succ _)
    · cases h; exact Nat.le_refl _

theorem matchPHclose_length {l r : List Char}
    (h : matchPHclose l = some r) : r.length < l.length := by
  match l, h with
  | a :: b :: rest, h =>
    simp only [matchPHclose] at h
    split at h
    · cases h; simp; omega
    · cases h

theorem matchPH_length {cs : List Char} {m : PH} {rest : List Char}
    (h : matchPH cs = some (m, rest)) : rest.length < cs.length := by
  match cs, h with
  | a :: b :: r, h =>
    simp only [matchPH] at h
    split at h
    · cases h1 : matchPHname r with
      | none => rw [h1] at h; cases h
      | some p1 =>
        obtain ⟨nm, r1⟩ := p1
        rw [h1] at h
        dsimp only at h
        cases h2 : matchPHtype r1 with
        | none => rw [h2] at h; cases h
        | some p2 =>
          obtain ⟨ty, r2⟩ := p2
          rw [h2] at h
          dsimp only at h
          cases h3 : matchPHdefault r2 with
          | none => rw [h3] at h; cases h
          | some p3 =>
            obtain ⟨df, r3⟩ := p3
            rw [h3] at h
            dsimp only at h
            cases h4 : matchPHclose r3 with
            | none => rw [h4] at h; cases h
            | some r4 =>
              rw [h4] at h
              cases h
              have g1 := matchPHname_length h1
              have g2 := matchPHtype_length h2
              have g3 := matchPHdefault_length h3
              have g4 := matchPHclose_length h4
              dsimp only at g1 g2 g3
              simp only [List.length_cons]
              omega
    · cases h

theorem tokensF_congr :
    ∀ (f g : Nat) (cs : List Char), cs.length ≤ f → cs.length ≤ g →
      tokensF f cs = tokensF g cs
  | 0, g, cs, hf, _ => by
    have : cs = [] := List.length_eq_zero.mp (Nat.le_zero.mp hf)
    subst this
    cases g <;> rfl
  | f + 1, g, [], _, _ => by cases g <;> rfl
  | f + 1, 0, c :: cs, _, hg => by simp at hg
  | f + 1, g + 1, c :: cs, hf, hg => by
    simp only [tokensF]
    cases h : matchPH (c :: cs) with
    | none =>
      have hl : cs.length ≤ f := by simp at hf; omega
      have hl' : cs.length ≤ g := by simp at hg; omega
      dsimp only
      rw [tokensF_congr f g cs hl hl']
    | some p =>
      obtain ⟨m, rest⟩ := p
      have hr := matchPH_length h
      have hl : rest.length ≤ f := by simp at hr hf ⊢; omega
      have hl' : rest.length ≤ g := by simp at hr hg ⊢; omega
      dsimp only
      rw [tokensF_congr f g rest hl hl']

theorem tokens_cons_some {c : Char} {cs rest : List Char} {m : PH}
    (h : matchPH (c :: cs) = some (m, rest)) :
    tokens (c :: cs) = Tok.ph m :: tokens rest := by
  have hr := matchPH_length h
  show tokensF (cs.length + 1) (c :: cs) = _
  simp only [tokensF, h]
  congr 1
  exact tokensF_congr cs.length rest.length rest
    (by simp at hr; omega) (Nat.le_refl _)

theorem tokens_cons_none {c : Char} {cs : List Char}
    (h : matchPH (c :: cs) = none) :
    tokens (c :: cs) = Tok.lit c :: tokens cs := by
  show tokensF (cs.length + 1) (c :: cs) = _
  simp only [tokensF, h]
  rfl

theorem matchPH_none_head {c : Char} {l : List Char} (hc : c ≠ lbrace) :
    matchPH (c :: l) = none := by
  cases l with
  | nil => rfl
  | cons b rest =>
    simp only [matchPH]
    rw [if_neg]
    intro hab
    exact hc hab.1

theorem tokens_lit_append {lit rest : List Char}
    (h : ∀ c ∈ lit, c ≠ lbrace) :
    tokens (lit ++ rest) = lit.map Tok.lit ++ tokens rest := by
  induction lit with
  | nil => simp
  | cons c l ih =>
    have hc : c ≠ lbrace := h c (by simp)
    rw [List.cons_append, tokens_cons_none (matchPH_none_head hc),
      ih (fun x hx => h x (by simp [hx]))]
    simp

theorem string_mk_data (s : String) : String.mk s.data = s := rfl

theorem span_append (p : Char → Bool) {l1 : List Char} (c : Char)
    (l2 : List Char) (h1 : ∀ x ∈ l1, p x = true) (hc : p c = false) :
    (l1 ++ c :: l2).takeWhile p = l1 ∧ (l1 ++ c :: l2).dropWhile p = c :: l2 := by
  induction l1 with
  | nil => simp [List.takeWhile_cons, List.dropWhile_cons, hc]
  | cons a l ih =>
    have ha : p a = true := h1 a (by simp)
    have ih' := ih (fun x hx => h1 x (by simp [hx]))
    simp [List.takeWhile_cons, List.dropWhile_cons, ha, ih'.1, ih'.2]

/-- Textual form of a placeholder match, re-rendered in the source grammar. -/
def renderPH (m : PH) : List Char :=
  lbrace :: lbrace :: m.name.data
    ++ (match m.type? with
        | some t => ':' :: t.data
        | Option.none => [])
    ++ (match m.default? with
        | some d => '=' :: d.data
        | Option.none => [])
    ++ [rbrace, rbrace]

/-- A string is a wellformed placeholder name when it matches
`[a-zA-Z_][a-zA-Z0-9_]*`. -/
def wfName (s : String) : Bool :=
  match s.data with
  | [] => false
  | c :: cs => nameStartChar c && cs.all nameChar

/-- A placeholder match is wellformed when re-rendering it in the grammar
reproduces exactly the same match: the name matches the name class, the
type token (when present) is a nonempty lowercase run, and the default
literal (when present) is nonempty and free of closing braces. -/
def wfPH (m : PH) : Bool :=
  wfName m.name &&
  (match m.type? with
   | some t => !t.data.isEmpty && t.data.all Char.isLower
   | Option.none => true) &&
  (match m.default? with
   | some d => !d.data.isEmpty && d.data.all (fun c => c ≠ rbrace)
   | Option.none => true)

theorem matchPHname_render {s : String} (h : wfName s = true)
    {c : Char} (hc : nameChar c = false) (R : List Char) :
    matchPHname (s.data ++ c :: R) = some (s, c :: R) := by
  cases hd : s.data with
  | nil => unfold wfName at h; rw [hd] at h; cases h
  | cons c0 cs =>
    unfold wfName at h
    rw [hd] at h
    have h' : nameStartChar c0 = true ∧ ∀ x ∈ cs, nameChar x = true := by
      simpa [List.all_eq_true] using h
    have hs : s = String.mk (c0 :: cs) := by rw [← hd]
    have hsp := span_append nameChar c R h'.2 hc
    simp only [List.cons_append, matchPHname, h'.1, if_pos, hsp.1, hsp.2]
    rw [hs]

theorem matchPHtype_skip {c : Char} (hc : ¬(c = ':')) (R : List Char) :
    matchPHtype (c :: R) = some (Option.none, c :: R) := by
  simp [matchPHtype, hc]

theorem matchPHtype_render {t : String} (hne : t.data.isEmpty = false)
    (hall : t.data.all Char.isLower = true) {c : Char}
    (hc : c.isLower = false) (R : List Char) :
    matchPHtype (':' :: (t.data ++ c :: R)) = some (some t, c :: R) := by
  cases hd : t.data with
  | nil => rw [hd] at hne; simp at hne
  | cons c0 cs =>
    have hall' : ∀ x ∈ c0 :: cs, Char.isLower x = true := by
      rw [← hd]
      simpa [List.all_eq_true] using hall
    have ht : t = String.mk (c0 :: cs) := by rw [← hd]
    have hsp := span_append Char.isLower c R hall' hc
    simp only [matchPHtype, if_pos rfl, List.cons_append] at hsp ⊢
    rw [List.takeWhile_cons, List.dropWhile_cons, hall' c0 (by simp)] at hsp
    simp only [if_pos] at hsp
    rw [List.takeWhile_cons, List.dropWhile_cons, hall' c0 (by simp)]
    simp only [if_pos]
    rw [hsp.1, hsp.2]
    rw [ht]

theorem matchPHdefault_skip {c : Char} (hc : ¬(c = '=')) (R : List Char) :
    matchPHdefault (c :: R) = some (Option.none, c :: R) := by
  simp [matchPHdefault, hc]

theorem matchPHdefault_render {d : String} (hne : d.data.isEmpty = false)
    (hall : d.data.all (fun c => c ≠ rbrace) = true) (R : List Char) :
    matchPHdefault ('=' :: (d.data ++ rbrace :: R)) = some (some d, rbrace :: R) := by
  cases hd : d.data with
  | nil => rw [hd] at hne; simp at hne
  | cons c0 cs =>
    have hall' : ∀ x ∈ c0 :: cs, (fun c => decide (c ≠ rbrace)) x = true := by
      rw [← hd]
      simpa [List.all_eq_true] using hall
    have hdd : d = String.mk (c0 :: cs) := by rw [← hd]
    have hrb : (fun c => decide (c ≠ rbrace)) rbrace = false := by simp
    have hsp := span_append (fun c => decide (c ≠ rbrace)) rbrace R hall' hrb
    have h1 := hsp.1
    have h2 := hsp.2
    simp only [List.cons_append] at h1 h2
    simp only [matchPHdefault, List.cons_append]
    rw [if_pos trivial, h1, h2]
    dsimp only
    rw [hdd]

theorem matchPHclose_rb (R : List Char) :
    matchPHclose (rbrace :: rbrace :: R) = some R := by
  simp [matchPHclose]

theorem wfPH_name {m : PH} (h : wfPH m = true) : wfName m.name = true := by
  simp only [wfPH, Bool.and_eq_true] at h
  exact h.1.1

theorem wfPH_type {m : PH} {t : String} (h : wfPH m = true)
    (ht : m.type? = some t) :
    t.data.isEmpty = false ∧ t.data.all Char.isLower = true := by
  simp only [wfPH, Bool.and_eq_true, ht] at h
  have h2 := h.1.2
  simp only [Bool.and_eq_true, Bool.not_eq_true'] at h2
  exact h2

theorem wfPH_default {m : PH} {d : String} (h : wfPH m = true)
    (hd : m.default? = some d) :
    d.data.isEmpty = false ∧ d.data.all (fun c => c ≠ rbrace) = true := by
  simp only [wfPH, Bool.and_eq_true, hd] at h
  have h2 := h.2
  simp only [Bool.and_eq_true, Bool.not_eq_true'] at h2
  exact h2

theorem matchPH_renderPH {m : PH} (h : wfPH m = true) (rest : List Char) :
    matchPH (renderPH m ++ rest) = some (m, rest) := by
  obtain ⟨nm, ty, df⟩ := m
  have hn : wfName nm = true := wfPH_name h
  rcases ty with _ | t <;> rcases df with _ | d
  · simp only [renderPH, List.append_assoc, List.nil_append, List.cons_append]
    simp only [matchPH, if_pos (And.intro rfl rfl)]
    rw [matchPHname_render hn (by decide) (rbrace :: rest)]
    dsimp only
    rw [matchPHtype_skip (by decide) (rbrace :: rest)]
    dsimp only
    rw [matchPHdefault_skip (by decide) (rbrace :: rest)]
    dsimp only
    rw [matchPHclose_rb rest]
    simp
  · have hd := wfPH_default h rfl
    simp only [renderPH, List.append_assoc, List.nil_append, List.cons_append]
    simp only [matchPH, if_pos (And.intro rfl rfl)]
    rw [matchPHname_render hn (by decide) (d.data ++ rbrace :: rbrace :: rest)]
    dsimp only
    rw [matchPHtype_skip (by decide) (d.data ++ rbrace :: rbrace :: rest)]
    dsimp only
    rw [matchPHdefault_render hd.1 hd.2 (rbrace :: rest)]
    dsimp only
    rw [matchPHclose_rb rest]
    simp
  · have ht := wfPH_type h rfl
    simp only [renderPH, List.append_assoc, List.nil_append, List.cons_append]
    simp only [matchPH, if_pos (And.intro rfl rfl)]
    rw [matchPHname_render hn (by decide) (t.data ++ rbrace :: rbrace :: rest)]
    dsimp only
    rw [matchPHtype_render ht.1 ht.2 (by decide) (rbrace :: rest)]
    dsimp only
    rw [matchPHdefault_skip (by decide) (rbrace :: rest)]
    dsimp only
    rw [matchPHclose_rb rest]
    simp
  · have ht := wfPH_type h rfl
    have hd := wfPH_default h rfl
    simp only [renderPH, List.append_assoc, List.nil_append, List.cons_append]
    simp only [matchPH, if_pos (And.intro rfl rfl)]
    rw [matchPHname_render hn (by decide)
      (t.data ++ '=' :: (d.data ++ rbrace :: rbrace :: rest))]
    dsimp only
    rw [matchPHtype_render ht.1 ht.2 (by decide)
      (d.data ++ rbrace :: rbrace :: rest)]
    dsimp only
    rw [matchPHdefault_render hd.1 hd.2 (rbrace :: rest)]
    dsimp only
    rw [matchPHclose_rb rest]
    simp

/-- A template presented as an alternation of literal runs and placeholder
matches; rendering it produces the raw template text. -/
inductive TPart where
  | lit (s : String)
  | ph (m : PH)

/-- Characters contributed by one part. -/
def renderPart : TPart → List Char
  | TPart.lit s => s.data
  | TPart.ph m => renderPH m

/-- The template text denoted by a part list. -/
def renderTemplate (ps : List TPart) : String :=
  String.mk (ps.flatMap renderPart)

/-- Wellformedness of a part: literal runs contain no opening brace (so no
placeholder match can begin inside or across them) and placeholder parts
re-parse to themselves. -/
def wfPart : TPart → Bool
  | TPart.lit s => s.data.all (fun c => c ≠ lbrace)
  | TPart.ph m => wfPH m

theorem tokens_renderPH_append {m : PH} (h : wfPH m = true) (rest : List Char) :
    tokens (renderPH m ++ rest) = Tok.ph m :: tokens rest := by
  have hm := matchPH_renderPH h rest
  simp only [renderPH, List.cons_append, List.append_assoc] at hm ⊢
  exact tokens_cons_some hm

/-- Tokens contributed by one part after scanning. -/
def tokPart : TPart → List Tok
  | TPart.lit s => s.data.map Tok.lit
  | TPart.ph m => [Tok.ph m]

theorem tokens_flatMap (ps : List TPart) (h : ∀ p ∈ ps, wfPart p = true) :
    tokens (ps.flatMap renderPart) = ps.flatMap tokPart := by
  induction ps with
  | nil => rfl
  | cons p ps ih =>
    have hp := h p (by simp)
    have ih' := ih (fun x hx => h x (by simp [hx]))
    rw [List.flatMap_cons, List.flatMap_cons]
    cases p with
    | lit s =>
      have hl : ∀ c ∈ s.data, c ≠ lbrace := by
        simpa [wfPart, List.all_eq_true] using hp
      rw [show renderPart (TPart.lit s) = s.data from rfl,
        tokens_lit_append hl, ih']
      rfl
    | ph m =>
      have hm : wfPH m = true := by simpa [wfPart] using hp
      rw [show renderPart (TPart.ph m) = renderPH m from rfl,
        tokens_renderPH_append hm, ih']
      rfl

/-- The replacement text a part contributes under substitution, spelled by
the precedence of the specification: a context value is stringified
(booleans as the lowercase words, `None` as the empty string), else the
inline default literal is used verbatim, else the empty string. -/
def substSpecPart (values : List (String × PyVal)) : TPart → String
  | TPart.lit s => s
  | TPart.ph m =>
    match lookupStr m.name values with
    | some (PyVal.bool b) => if b then "true" else "false"
    | some PyVal.none => ""
    | some v => pyStrVal v
    | Option.none =>
      match m.default? with
      | some d => d
      | Option.none => ""

theorem replacer_wf {values : List (String × PyVal)} {m : PH}
    (h : wfPH m = true) :
    replacer values m = substSpecPart values (TPart.ph m) := by
  cases hl : lookupStr m.name values with
  | some v => cases v <;> simp [replacer, substSpecPart, hl]
  | none =>
    cases hdf : m.default? with
    | none => simp [replacer, substSpecPart, hl, hdf]
    | some d =>
      have hne := (wfPH_default h hdf).1
      simp [replacer, substSpecPart, hl, hdf, hne]

theorem data_append (s t : String) : (s ++ t).data = s.data ++ t.data := by
  cases s
  cases t
  rfl

theorem substToks_append (values : List (String × PyVal)) (a b : List Tok) :
    substToks values (a ++ b) = substToks values a ++ substToks values b := by
  simp [substToks]

theorem substToks_flatMap (values : List (String × PyVal)) (ps : List TPart)
    (h : ∀ p ∈ ps, wfPart p = true) :
    substToks values (tokens (ps.flatMap renderPart)) =
      ps.flatMap (fun p => (substSpecPart values p).data) := by
  rw [tokens_flatMap ps h]
  induction ps with
  | nil => rfl
  | cons p ps ih =>
    have hp := h p (by simp)
    have ih' := ih (fun x hx => h x (by simp [hx]))
    rw [List.flatMap_cons, List.flatMap_cons, substToks_append, ih']
    congr 1
    cases p with
    | lit s =>
      show substToks values (s.data.map Tok.lit) = s.data
      induction s.data with
      | nil => rfl
      | cons c cs ihc => simp [substToks] at ihc ⊢; exact ihc
    | ph m =>
      have hm : wfPH m = true := by simpa [wfPart] using hp
      show substToks values [Tok.ph m] = (substSpecPart values (TPart.ph m)).data
      simp [substToks, replacer_wf hm]

theorem data_join : ∀ l : List String,
    (String.join l).data = l.flatMap String.data := by
  have aux : ∀ (l : List String) (acc : String),
      (l.foldl (fun r s => r ++ s) acc).data = acc.data ++ l.flatMap String.data := by
    intro l
    induction l with
    | nil => intro acc; simp
    | cons s l ih =>
      intro acc
      rw [List.foldl_cons, ih (acc ++ s), data_append]
      simp
  intro l
  have := aux l ""
  simpa [String.join] using this

theorem findAll_renderTemplate (ps : List TPart)
    (h : ∀ p ∈ ps, wfPart p = true) :
    findAll (renderTemplate ps) =
      ps.filterMap (fun p => match p with
        | TPart.ph m => some m
        | TPart.lit _ => Option.none) := by
  unfold findAll
  rw [show (renderTemplate ps).data = ps.flatMap renderPart from rfl,
    tokens_flatMap ps h]
  induction ps with
  | nil => rfl
  | cons p ps ih =>
    have ih' := ih (fun x hx => h x (by simp [hx]))
    rw [List.flatMap_cons, List.filterMap_append, ih', List.filterMap_cons]
    cases p with
    | lit s =>
      have hnil : List.filterMap (fun t => match t with
          | Tok.ph m => some m
          | Tok.lit _ => Option.none) (s.data.map Tok.lit) = [] := by
        induction s.data with
        | nil => rfl
        | cons c cs ihc => simpa [List.filterMap_cons] using ihc
      simp [tokPart, hnil]
    | ph m => simp [tokPart]

theorem lookupStr_append {α : Type} (k : String) (a b : List (String × α)) :
    lookupStr k (a ++ b) =
      (match lookupStr k a with
       | some v => some v
       | Option.none => lookupStr k b) := by
  induction a with
  | nil => simp [lookupStr]
  | cons kv a ih =>
    obtain ⟨k', v⟩ := kv
    by_cases hk : k' = k
    · simp [lookupStr, hk]
    · simp [lookupStr, hk, ih]

theorem lookupStr_eq_none {α : Type} (k : String) (l : List (String × α)) :
    lookupStr k l = Option.none ↔ k ∉ l.map Prod.fst := by
  induction l with
  | nil => simp [lookupStr]
  | cons kv l ih =>
    obtain ⟨k', v⟩ := kv
    by_cases hk : k' = k
    · simp [lookupStr, hk]
    · simp [lookupStr, hk, ih, Ne.symm hk]

theorem lookup_parseParamsAux (name : String) :
    ∀ (ms : List PH) (acc : List (String × ParamConfig)) (ws : List Warn),
    lookupStr name (parseParamsAux ms acc ws).1 =
      (match lookupStr name acc with
       | some c => some c
       | Option.none =>
         if name ∈ PRESET_PARAMS then Option.none
         else (ms.find? (fun m => m.name == name)).map
           (fun m => (processMatch m).1))
  | [], acc, ws => by
    simp only [parseParamsAux, List.find?_nil, Option.map_none']
    cases lookupStr name acc with
    | some c => rfl
    | none => simp
  | m :: ms, acc, ws => by
    by_cases hp : m.name ∈ PRESET_PARAMS
    · rw [show parseParamsAux (m :: ms) acc ws = parseParamsAux ms acc ws by
        simp [parseParamsAux, hp]]
      rw [lookup_parseParamsAux name ms acc ws]
      cases lookupStr name acc with
      | some c => rfl
      | none =>
        by_cases hn : name ∈ PRESET_PARAMS
        · simp [hn]
        · have hne : ¬(m.name == name) = true := by
            simp only [beq_iff_eq]
            intro he
            exact hn (he ▸ hp)
          simp [hn, List.find?_cons, hne]
    · by_cases hacc : (lookupStr m.name acc).isSome
      · rw [show parseParamsAux (m :: ms) acc ws = parseParamsAux ms acc ws by
          simp [parseParamsAux, hp, hacc]]
        rw [lookup_parseParamsAux name ms acc ws]
        cases hla : lookupStr name acc with
        | some c => rfl
        | none =>
          by_cases hn : name ∈ PRESET_PARAMS
          · simp [hn]
          · have hne : ¬(m.name == name) = true := by
              simp only [beq_iff_eq]
              intro he
              rw [he, hla] at hacc
              simp at hacc
            simp [hn, List.find?_cons, hne]
      · rw [show parseParamsAux (m :: ms) acc ws =
            parseParamsAux ms (acc ++ [(m.name, (processMatch m).1)])
              (ws ++ (processMatch m).2) by
          simp [parseParamsAux, hp, hacc]]
        rw [lookup_parseParamsAux name ms _ _]
        rw [lookupStr_append]
        cases hla : lookupStr name acc with
        | some c => rfl
        | none =>
          by_cases hmn : m.name = name
          · subst hmn
            simp [lookupStr, List.find?_cons, hp]
          · have hne : ¬(m.name == name) = true := by simp [hmn]
            simp only [lookupStr, if_neg hmn]
            by_cases hn : name ∈ PRESET_PARAMS
            · simp [hn]
            · simp [hn, List.find?_cons, hne]

theorem lookup_parse_template_parameters (t : String) (name : String) :
    lookupStr name (parse_template_parameters t).1 =
      (if name ∈ PRESET_PARAMS then Option.none
       else ((findAll t).find? (fun m => m.name == name)).map
         (fun m => (processMatch m).1)) := by
  unfold parse_template_parameters
  rw [lookup_parseParamsAux]
  simp [lookupStr]

theorem nodup_parseParamsAux :
    ∀ (ms : List PH) (acc : List (String × ParamConfig)) (ws : List Warn),
    (acc.map Prod.fst).Nodup →
    ((parseParamsAux ms acc ws).1.map Prod.fst).Nodup
  | [], acc, ws, h => by simpa [parseParamsAux] using h
  | m :: ms, acc, ws, h => by
    by_cases hp : m.name ∈ PRESET_PARAMS
    · rw [show parseParamsAux (m :: ms) acc ws = parseParamsAux ms acc ws by
        simp [parseParamsAux, hp]]
      exact nodup_parseParamsAux ms acc ws h
    · by_cases hacc : (lookupStr m.name acc).isSome
      · rw [show parseParamsAux (m :: ms) acc ws = parseParamsAux ms acc ws by
          simp [parseParamsAux, hp, hacc]]
        exact nodup_parseParamsAux ms acc ws h
      · rw [show parseParamsAux (m :: ms) acc ws =
            parseParamsAux ms (acc ++ [(m.name, (processMatch m).1)])
              (ws ++ (processMatch m).2) by
          simp [parseParamsAux, hp, hacc]]
        apply nodup_parseParamsAux
        have hnm : m.name ∉ acc.map Prod.fst := by
          rw [← lookupStr_eq_none]
          cases hl : lookupStr m.name acc with
          | some c => rw [hl] at hacc; simp at hacc
          | none => rfl
        simp [List.nodup_append, h, hnm]

theorem nodup_parse_template_parameters (t : String) :
    ((parse_template_parameters t).1.map Prod.fst).Nodup := by
  unfold parse_template_parameters
  exact nodup_parseParamsAux _ [] [] (by simp)

/-- The recognized URI schemes of `generate_frame`'s image handling:
`image.startswith(('http://', 'https://', 'data:', 'file://'))`. -/
def hasUriScheme (s : String) : Bool :=
  strStarts "http://" s || strStarts "https://" s ||
    strStarts "data:" s || strStarts "file://" s

/-- POSIX `Path.is_absolute`. -/
def isAbsolutePath (s : String) : Bool :=
  match s.data with
  | c :: _ => c = '/'
  | [] => false

/-- POSIX path join `Path(cwd) / s` for a relative `s` (the working
directory produced by `Path.cwd()` is absolute and slash-free at its end
except for the root). -/
def joinPath (cwd s : String) : String :=
  if cwd.data.getLast? = some '/' then cwd ++ s else cwd ++ "/" ++ s

/-- UTF-8 bytes of a code point. -/
def utf8Bytes (n : Nat) : List Nat :=
  if n < 128 then [n]
  else if n < 2048 then [192 + n / 64, 128 + n % 64]
  else if n < 65536 then [224 + n / 4096, 128 + (n / 64) % 64, 128 + n % 64]
  else [240 + n / 262144, 128 + (n / 4096) % 64, 128 + (n / 64) % 64,
        128 + n % 64]

/-- Uppercase hexadecimal digit. -/
def hexDigitChar (n : Nat) : Char :=
  if n < 10 then Char.ofNat (48 + n) else Char.ofNat (55 + n)

/-- Characters `urllib.parse.quote` leaves unencoded with its default
`safe='/'` (ASCII letters, digits, `_.-~` and the slash). -/
def uriSafeChar (c : Char) : Bool :=
  c.isAlphanum || c = '_' || c = '.' || c = '-' || c = '~' || c = '/'

/-- Percent-encoding of one character. -/
def percentEncodeChar (c : Char) : List Char :=
  if uriSafeChar c then [c]
  else (utf8Bytes c.toNat).flatMap
    (fun b => ['%', hexDigitChar (b / 16), hexDigitChar (b % 16)])

/-- Model of `PurePosixPath.as_uri`: prepend the `file://` scheme and
percent-encode the absolute path. -/
def asUri (p : String) : String :=
  "file://" ++ String.mk (p.data.flatMap percentEncodeChar)

/-- Embedding of the image preprocessing at the head of
`HTMLFrameGenerator.generate_frame`: a truthy string value without a
recognized scheme is treated as a filesystem path, resolved against the
working directory when relative; when the resolved path exists the value is
rewritten with `as_uri`, otherwise a warning is logged and the value is
left as it was.  Falsy values (`None`, the empty string) skip the block
entirely. -/
def normalizeImage (cwd : String) (ex : String → Bool) : PyVal → PyVal × List Warn
  | PyVal.str s =>
    if s.data.isEmpty || hasUriScheme s then (PyVal.str s, [])
    else
      let p := if isAbsolutePath s then s else joinPath cwd s
      if ex p then (PyVal.str (asUri p), [])
      else (PyVal.str s, [Warn.imageNotFound p])
  | v => (v, [])

/-- Embedding of the variable-context construction of `generate_frame`:
the normalized image joins the required `title`/`text` keys, and the `ext`
mapping is merged with `context.update(ext)` semantics (an `ext` entry
shadows a required key on lookup, which the `ext ++ base` ordering of
`lookupStr` reproduces). -/
def buildContext (cwd : String) (ex : String → Bool)
    (title text image : PyVal) (ext : List (String × PyVal)) :
    List (String × PyVal) × List Warn :=
  let ni := normalizeImage cwd ex image
  (ext ++ [("title", title), ("text", text), ("image", ni.1)], ni.2)

/-- The substitution performed by one `generate_frame` call: build the
context, then `_replace_parameters(self.template, context)`. -/
def generate_frame_html (template : String) (cwd : String)
    (ex : String → Bool) (title text image : PyVal)
    (ext : List (String × PyVal)) : String × List Warn :=
  let c := buildContext cwd ex title text image ext
  (replace_parameters template c.1, c.2)

/-- The fixed Chrome stability flags passed by `_ensure_hti`. -/
def CHROME_FLAGS : List String :=
  ["--default-background-color=00000000", "--no-sandbox",
   "--disable-dev-shm-usage", "--disable-gpu",
   "--disable-software-rasterizer", "--disable-extensions",
   "--disable-setuid-sandbox", "--disable-dbus", "--hide-scrollbars",
   "--mute-audio", "--disable-background-networking",
   "--disable-features=TranslateUI", "--disable-ipc-flooding-protection",
   "--no-first-run", "--no-default-browser-check",
   "--disable-backgrounding-occluded-windows",
   "--disable-renderer-backgrounding"]

/-- Model of an `Html2Image` session as configured by `_ensure_hti`: its
size, flags and chosen browser executable are fixed at construction. -/
structure Html2Image where
  width : Nat
  height : Nat
  custom_flags : List String
  browser_executable : Option String
deriving DecidableEq

/-- The generator state relevant to session management: the size resolved
from the template path at construction, and the lazily created session
(`self.hti`, initialised to `None` in `__init__`). -/
structure GenState where
  width : Nat
  height : Nat
  hti : Option Html2Image
deriving DecidableEq

/-- Embedding of `HTMLFrameGenerator._ensure_hti`: create the session on
first use with the given size (and the browser executable found by
`_find_chrome_executable`, modelled as the ambient `browser` result);
reuse the existing session unchanged otherwise. -/
def ensure_hti (browser : Option String) (st : GenState) (w h : Nat) :
    GenState :=
  match st.hti with
  | some _ => st
  | Option.none =>
    { st with hti := some (Html2Image.mk w h CHROME_FLAGS browser) }

/-- The session-management step performed by each `generate_frame` call:
`self._ensure_hti(self.width, self.height)`. -/
def generate_frame_driver (browser : Option String) (st : GenState) :
    GenState :=
  ensure_hti browser st st.width st.height

/-- C1: for every template (presented as a wellformed alternation of
brace-free literal runs and placeholder matches) and every variable
context, each placeholder occurrence is replaced independently with the
precedence: a context value for the name is stringified (booleans become
the lowercase words true/false, `None` the empty string, other values
their string form) and substituted; otherwise the inline default literal
is substituted verbatim; otherwise the empty string is substituted.
Repeated occurrences of the same name are all replaced in the one pass. -/
theorem c1_substitution_precedence (values : List (String × PyVal))
    (ps : List TPart) (h : ∀ p ∈ ps, wfPart p = true) :
    replace_parameters (renderTemplate ps) values =
      String.join (ps.map (substSpecPart values)) := by
  unfold replace_parameters
  rw [show (renderTemplate ps).data = ps.flatMap renderPart from rfl,
    substToks_flatMap values ps h]
  have hdata : (ps.flatMap fun p => (substSpecPart values p).data) =
      (String.join (ps.map (substSpecPart values))).data := by
    rw [data_join]
    clear h
    induction ps with
    | nil => rfl
    | cons p ps ih => simp [ih]
  rw [hdata]

theorem c1_substitution_precedence_witness :
    (∀ p ∈ [TPart.lit "<p>", TPart.ph ⟨"x", Option.none, some "7"⟩,
        TPart.lit "</p><p>", TPart.ph ⟨"x", Option.none, some "7"⟩],
      wfPart p = true) ∧
    replace_parameters
        (renderTemplate [TPart.lit "<p>", TPart.ph ⟨"x", Option.none, some "7"⟩,
          TPart.lit "</p><p>", TPart.ph ⟨"x", Option.none, some "7"⟩])
        [("x", PyVal.int 3)] =
      String.join ([TPart.lit "<p>", TPart.ph ⟨"x", Option.none, some "7"⟩,
        TPart.lit "</p><p>", TPart.ph ⟨"x", Option.none, some "7"⟩].map
          (substSpecPart [("x", PyVal.int 3)])) :=
  ⟨by decide, c1_substitution_precedence [("x", PyVal.int 3)] _ (by decide)⟩

/-- C2 counterexample: for the template holding only \x7b\x7bcolor=ff0000\x7d\x7d,
the Parameter Declaration recorded in the parsed schema has declared type
text and default the string "ff0000" — not the normalized "#ff0000"
asserted by the claim (no type token is present, so the type defaults to
text and the color normalization never runs). -/
theorem c2_schema_default_counterexample :
    (parse_template_parameters "\x7b\x7bcolor=ff0000\x7d\x7d").1 =
      [("color", ParamConfig.mk "text" (PyVal.str "ff0000") "color")] ∧
    PyVal.str "ff0000" ≠ PyVal.str "#ff0000" := by decide

/-- C2 (amended): for template \x7b\x7bcolor=ff0000\x7d\x7d and a context
with no value for the name color, substitution emits the literal text
ff0000 (the unparsed inline default); the Parameter Declaration recorded
for that placeholder has declared type text (the default type, since no
type token is present) and default the string "ff0000"; the normalized
default "#ff0000" is recorded only for an explicitly color-typed
placeholder such as \x7b\x7bcolor:color=ff0000\x7d\x7d. -/
theorem c2_default_substitution_vs_schema :
    replace_parameters "\x7b\x7bcolor=ff0000\x7d\x7d" [] = "ff0000" ∧
    parse_template_parameters "\x7b\x7bcolor=ff0000\x7d\x7d" =
      ([("color", ParamConfig.mk "text" (PyVal.str "ff0000") "color")], []) ∧
    parse_template_parameters "\x7b\x7bcolor:color=ff0000\x7d\x7d" =
      ([("color", ParamConfig.mk "color" (PyVal.str "#ff0000") "color")], []) := by
  decide

/-- C3 counterexample: with working directory /root, a filesystem on which
no path exists, and the relative image value "assets/pic.png", the image
preprocessing of generate_frame logs a warning and leaves the value
unchanged — it is not rewritten into a file:// URI as the claim asserts
for every non-scheme value. -/
theorem c3_missing_image_counterexample :
    normalizeImage "/root" (fun _ => false) (PyVal.str "assets/pic.png") =
      (PyVal.str "assets/pic.png",
        [Warn.imageNotFound "/root/assets/pic.png"]) ∧
    strStarts "file://" "assets/pic.png" = false := by decide

/-- C3 (amended): an image value beginning with one of the recognized
schemes http://, https://, data:, file:// enters the variable context
unchanged; otherwise a nonempty value is treated as a filesystem path,
resolved against the current working directory when relative, and — only
when the resolved path exists — rewritten into a file:// URI; when the
resolved path does not exist a warning is logged, the value is left
unchanged, and the render still proceeds (no error is raised). -/
theorem c3_image_normalization (cwd : String) (ex : String → Bool)
    (s : String) :
    (hasUriScheme s = true →
      normalizeImage cwd ex (PyVal.str s) = (PyVal.str s, [])) ∧
    (s.data.isEmpty = false → hasUriScheme s = false →
      (ex (if isAbsolutePath s then s else joinPath cwd s) = true →
        normalizeImage cwd ex (PyVal.str s) =
          (PyVal.str (asUri (if isAbsolutePath s then s else joinPath cwd s)),
            [])) ∧
      (ex (if isAbsolutePath s then s else joinPath cwd s) = false →
        normalizeImage cwd ex (PyVal.str s) =
          (PyVal.str s,
            [Warn.imageNotFound
              (if isAbsolutePath s then s else joinPath cwd s)]))) := by
  refine ⟨fun hs => ?_, fun hne hs => ⟨fun hex => ?_, fun hex => ?_⟩⟩
  · simp [normalizeImage, hs]
  · simp [normalizeImage, hs, hne, hex]
  · simp [normalizeImage, hs, hne, hex]

theorem c3_image_normalization_witness :
    normalizeImage "/root" (fun _ => true) (PyVal.str "https://x.png") =
      (PyVal.str "https://x.png", []) ∧
    normalizeImage "/root" (fun _ => true) (PyVal.str "assets/pic.png") =
      (PyVal.str "file:///root/assets/pic.png", []) ∧
    normalizeImage "/root" (fun _ => false) (PyVal.str "assets/pic.png") =
      (PyVal.str "assets/pic.png",
        [Warn.imageNotFound "/root/assets/pic.png"]) := by
  refine ⟨(c3_image_normalization "/root" (fun _ => true) "https://x.png").1
      (by decide), ?_, ?_⟩
  · exact (((c3_image_normalization "/root" (fun _ => true)
      "assets/pic.png").2 (by decide) (by decide)).1 (by decide)).trans
      (by decide)
  · exact (((c3_image_normalization "/root" (fun _ => false)
      "assets/pic.png").2 (by decide) (by decide)).2 (by decide)).trans
      (by decide)

/-- C4: for every template, the parsed schema has exactly one entry per
distinct non-reserved placeholder name — its keys are duplicate-free, and
the declaration looked up under a name is exactly the processed FIRST
placeholder match carrying that name (so later occurrences, whatever their
type or default tokens, are ignored for schema purposes).  In particular
the template holding \x7b\x7bx:number=3.5\x7d\x7d twice yields exactly one
schema entry for x with type number and default 3.5, and both occurrences
are substituted in the one substitution pass. -/
theorem c4_first_occurrence_schema :
    (∀ t : String, ((parse_template_parameters t).1.map Prod.fst).Nodup) ∧
    (∀ (t name : String),
      lookupStr name (parse_template_parameters t).1 =
        (if name ∈ PRESET_PARAMS then Option.none
         else ((findAll t).find? (fun m => m.name == name)).map
           (fun m => (processMatch m).1))) ∧
    parse_template_parameters
        "\x7b\x7bx:number=3.5\x7d\x7d and \x7b\x7bx:number=3.5\x7d\x7d" =
      ([("x", ParamConfig.mk "number" (PyVal.float (mkRat 7 2)) "x")], []) ∧
    replace_parameters
        "\x7b\x7bx:number=3.5\x7d\x7d and \x7b\x7bx:number=3.5\x7d\x7d" [] =
      "3.5 and 3.5" :=
  ⟨nodup_parse_template_parameters, lookup_parse_template_parameters,
    by decide, by decide⟩

/-- C5: a placeholder whose name is reserved (title, text, image or a
content-metadata name) never appears in the parsed schema, but its
occurrences still participate in substitution: for the spec's end-to-end
template, substitution with title Hello and text World produces the markup
holding Hello, World and calm, while the schema holds exactly the one
declared parameter mood of type text with default calm. -/
theorem c5_reserved_names :
    (∀ (t name : String), name ∈ PRESET_PARAMS →
      lookupStr name (parse_template_parameters t).1 = Option.none) ∧
    replace_parameters
        "<h1>\x7b\x7btitle\x7d\x7d</h1><p>\x7b\x7btext\x7d\x7d</p><p>\x7b\x7bmood:text=calm\x7d\x7d</p>"
        [("title", PyVal.str "Hello"), ("text", PyVal.str "World")] =
      "<h1>Hello</h1><p>World</p><p>calm</p>" ∧
    parse_template_parameters
        "<h1>\x7b\x7btitle\x7d\x7d</h1><p>\x7b\x7btext\x7d\x7d</p><p>\x7b\x7bmood:text=calm\x7d\x7d</p>" =
      ([("mood", ParamConfig.mk "text" (PyVal.str "calm") "mood")], []) := by
  refine ⟨fun t name hn => ?_, by decide, by decide⟩
  rw [lookup_parse_template_parameters, if_pos hn]

theorem c5_reserved_names_witness :
    ("title" ∈ PRESET_PARAMS ∧
      lookupStr "title"
        (parse_template_parameters "<h1>\x7b\x7btitle\x7d\x7d</h1>").1 =
        Option.none) :=
  ⟨by decide,
    c5_reserved_names.1 "<h1>\x7b\x7btitle\x7d\x7d</h1>" "title" (by decide)⟩

/-- C6: for the placeholder \x7b\x7bflag:bool\x7d\x7d, a context boolean
true substitutes as the literal text true; an absent context value with no
inline default substitutes as the empty string; and the schema default
recorded for flag is the boolean false. -/
theorem c6_bool_placeholder :
    replace_parameters "\x7b\x7bflag:bool\x7d\x7d"
        [("flag", PyVal.bool true)] = "true" ∧
    replace_parameters "\x7b\x7bflag:bool\x7d\x7d" [] = "" ∧
    parse_template_parameters "\x7b\x7bflag:bool\x7d\x7d" =
      ([("flag", ParamConfig.mk "bool" (PyVal.bool false) "flag")], []) := by
  decide

/-- C7: a number-typed default literal is coerced by an integer parse when
it contains no dot character and by a float parse otherwise; when that
parse fails the coercion does not raise: it logs a warning and yields the
default 0, so the parse of the whole template proceeds. -/
theorem c7_number_default_coercion (s : String) :
    (hasDotChar s = false →
      parse_default_value "number" (some s) =
        (match pyParseInt s with
         | some i => (PyVal.int i, [])
         | Option.none => (PyVal.int 0, [Warn.invalidNumber s]))) ∧
    (hasDotChar s = true →
      parse_default_value "number" (some s) =
        (match pyParseFloat s with
         | some q => (PyVal.float q, [])
         | Option.none => (PyVal.int 0, [Warn.invalidNumber s]))) := by
  constructor
  · intro h
    simp only [parse_default_value, if_pos rfl, h]
    cases pyParseInt s <;> simp
  · intro h
    simp only [parse_default_value, if_pos rfl, h]
    cases pyParseFloat s <;> simp

theorem c7_number_default_coercion_witness :
    parse_default_value "number" (some "42") = (PyVal.int 42, []) ∧
    parse_default_value "number" (some "3.5") =
      (PyVal.float (mkRat 7 2), []) ∧
    parse_default_value "number" (some "abc") =
      (PyVal.int 0, [Warn.invalidNumber "abc"]) :=
  ⟨((c7_number_default_coercion "42").1 (by decide)).trans (by decide),
   ((c7_number_default_coercion "3.5").2 (by decide)).trans (by decide),
   ((c7_number_default_coercion "abc").1 (by decide)).trans (by decide)⟩

/-- C8: a placeholder whose type token is a nonempty lowercase run outside
the four supported types does not fail the parse: processing it yields the
effective declared type text, with the default coerced under the text rule,
and emits exactly the non-fatal unknown-type warning. -/
theorem c8_unknown_type_downgrade (name ty : String) (df : Option String)
    (h1 : ty.data.isEmpty = false) (h2 : ty.data.all Char.isLower = true)
    (hu : ty ∉ supportedTypes) :
    processMatch ⟨name, some ty, df⟩ =
      (ParamConfig.mk "text" (parse_default_value "text" df).1 name,
        [Warn.unknownType name ty]) := by
  have hw : (parse_default_value "text" df).2 = [] := by
    cases df with
    | none => rfl
    | some s => rfl
  simp [processMatch, hu, hw]

theorem c8_unknown_type_downgrade_witness :
    processMatch ⟨"a", some "zzz", some "hi"⟩ =
      (ParamConfig.mk "text" (PyVal.str "hi") "a",
        [Warn.unknownType "a" "zzz"]) ∧
    parse_template_parameters "\x7b\x7ba:zzz=hi\x7d\x7d" =
      ([("a", ParamConfig.mk "text" (PyVal.str "hi") "a")],
        [Warn.unknownType "a" "zzz"]) :=
  ⟨(c8_unknown_type_downgrade "a" "zzz" (some "hi") (by decide) (by decide)
      (by decide)).trans (by decide),
   by decide⟩

/-- C9: the rendering session is created lazily at most once per
generator: a render call on a fresh generator creates the session sized by
the generator's resolved width and height, and iterating further render
calls never replaces or resizes it — the state after any number of calls
equals the state after the first. -/
theorem c9_session_lazy_once (browser : Option String) (st : GenState)
    (h : st.hti = Option.none) :
    (generate_frame_driver browser st).hti =
      some (Html2Image.mk st.width st.height CHROME_FLAGS browser) ∧
    ∀ n : Nat,
      Nat.iterate (generate_frame_driver browser) (n + 1) st =
        generate_frame_driver browser st := by
  have hcreate : generate_frame_driver browser st =
      { st with
        hti := some (Html2Image.mk st.width st.height CHROME_FLAGS browser) } := by
    unfold generate_frame_driver ensure_hti
    rw [h]
  have hfix :
      generate_frame_driver browser (generate_frame_driver browser st) =
        generate_frame_driver browser st := by
    rw [hcreate]
    unfold generate_frame_driver ensure_hti
    rfl
  constructor
  · rw [hcreate]
  · intro n
    induction n with
    | zero => rfl
    | succ k ih => rw [Function.iterate_succ_apply', ih, hfix]

theorem c9_session_lazy_once_witness :
    (generate_frame_driver Option.none (GenState.mk 1080 1920 Option.none)).hti =
      some (Html2Image.mk 1080 1920 CHROME_FLAGS Option.none) ∧
    Nat.iterate (generate_frame_driver Option.none) 3
        (GenState.mk 1080 1920 Option.none) =
      generate_frame_driver Option.none (GenState.mk 1080 1920 Option.none) :=
  ⟨(c9_session_lazy_once Option.none (GenState.mk 1080 1920 Option.none)
      rfl).1,
   (c9_session_lazy_once Option.none (GenState.mk 1080 1920 Option.none)
      rfl).2 2⟩

/-- C10: a context value None substitutes as the empty string, never as
the text None; and since generate_frame always places the keys title, text
and image in the context (even for None arguments), a reserved
placeholder's inline default is never reached — with a None title argument
the placeholder title-with-default substitutes as the empty string, not as
the default. -/
theorem c10_none_context_value :
    (∀ (values : List (String × PyVal)) (m : PH),
      lookupStr m.name values = some PyVal.none → replacer values m = "") ∧
    (∀ (cwd : String) (ex : String → Bool) (title text image : PyVal)
        (ext : List (String × PyVal)),
      (lookupStr "title" (buildContext cwd ex title text image ext).1).isSome ∧
      (lookupStr "text" (buildContext cwd ex title text image ext).1).isSome ∧
      (lookupStr "image" (buildContext cwd ex title text image ext).1).isSome) ∧
    (∀ (cwd : String) (ex : String → Bool) (text image : PyVal)
        (ext : List (String × PyVal)) (d : String),
      lookupStr "title" ext = Option.none →
      replacer (buildContext cwd ex PyVal.none text image ext).1
        ⟨"title", Option.none, some d⟩ = "") := by
  refine ⟨fun values m h => ?_, fun cwd ex title text image ext => ?_,
    fun cwd ex text image ext d h => ?_⟩
  · simp [replacer, h]
  · refine ⟨?_, ?_, ?_⟩ <;>
      (rw [show (buildContext cwd ex title text image ext).1 =
          ext ++ [("title", title), ("text", text),
            ("image", (normalizeImage cwd ex image).1)] from rfl,
        lookupStr_append]) <;>
      (cases lookupStr _ ext <;> simp [lookupStr])
  · rw [show (buildContext cwd ex PyVal.none text image ext).1 =
      ext ++ [("title", PyVal.none), ("text", text),
        ("image", (normalizeImage cwd ex image).1)] from rfl]
    simp [replacer, lookupStr_append, h, lookupStr]

theorem c10_none_context_value_witness :
    replacer [("x", PyVal.none)] ⟨"x", Option.none, some "fallback"⟩ = "" ∧
    (lookupStr "title"
      (buildContext "/r" (fun _ => true) PyVal.none (PyVal.str "t")
        PyVal.none []).1).isSome ∧
    replacer
        (buildContext "/r" (fun _ => true) PyVal.none (PyVal.str "t")
          PyVal.none []).1
        ⟨"title", Option.none, some "Fallback"⟩ = "" :=
  ⟨c10_none_context_value.1 [("x", PyVal.none)]
      ⟨"x", Option.none, some "fallback"⟩ (by decide),
   (c10_none_context_value.2.1 "/r" (fun _ => true) PyVal.none
      (PyVal.str "t") PyVal.none []).1,
   c10_none_context_value.2.2 "/r" (fun _ => true) (PyVal.str "t")
      PyVal.none [] "Fallback" (by decide)⟩
